import Mathlib

/-!
Verification of the `fogfish/stream` S3 file-system layer.

Shallow embedding of the Go sources:
* `filename.go` — path validator (`IsValidFile`, `IsValidPath`, `IsValidDir`);
  Go strings are embedded as Lean `String`, with byte-level indexing of Go
  replaced by `Char`-list operations on `String.data` (all paths of interest
  are ASCII, where bytes and chars coincide).
* `fs.go` / `dir.go` / `lazy io` — the file-system facade, reader, writer,
  directory enumerator, and the lazy sequence cursor from
  `internal/seq/seq.go`.

Network effects are made explicit: every operation returns, next to its
result, the list of remote requests it issued, and remote behaviour enters
as an explicit response argument or as the faithful `listModel` of S3
`ListObjectsV2` over a bucket contents list.
-/

/-! ### Path validator (`filename.go`) -/

/-- One round of the element scan inside Go `fs.ValidPath`: `seg` is the
current `/`-free element accumulated so far (the Go code scans to the next
`/` and checks the element; accumulating char-by-char computes the same
segments).  An element must not be `""`, `"."` or `".."`. -/
def segOK (seg : List Char) : Bool :=
  !(seg = [] || seg = ['.'] || seg = ['.', '.'])

/-- The element-scanning loop of Go `io/fs.ValidPath`, over the remaining
characters, carrying the element accumulated since the last `/`. -/
def validSegs : List Char → List Char → Bool
  | seg, [] => segOK seg
  | seg, c :: cs =>
    if c = '/' then segOK seg && validSegs [] cs
    else validSegs (seg ++ [c]) cs

/-- Go `io/fs.ValidPath`.  The `utf8.ValidString` guard is identically true
in the `Char`-sequence embedding of strings. -/
def fsValidPath (s : String) : Bool :=
  s = "." || validSegs [] s.data

/-- `IsValidFile` from `filename.go`: no trailing `/`, leading `/` optional
and stripped before `fs.ValidPath`. -/
def IsValidFile (path : String) : Bool :=
  if path.data.length = 0 then false
  else if path.data.getLast? = some '/' then false
  else if path.data.head? = some '/' then fsValidPath ⟨path.data.drop 1⟩
  else fsValidPath path

/-- Continuation of `IsValidPath` after the trailing-slash strip: reject
the empty remainder, strip an optional leading `/`, run `fs.ValidPath`. -/
def pathTail (p : List Char) : Bool :=
  if p.length = 0 then false
  else if p.head? = some '/' then fsValidPath ⟨p.drop 1⟩
  else fsValidPath ⟨p⟩

/-- `IsValidPath` from `filename.go`: `/` is valid; otherwise one trailing
`/` is stripped, then a leading `/` is stripped, then `fs.ValidPath`. -/
def IsValidPath (path : String) : Bool :=
  if path = "/" then true
  else
    pathTail
      (if path.data ≠ [] ∧ path.data.getLast? = some '/' then path.data.dropLast
       else path.data)

/-- Continuation of `IsValidDir` after the trailing-slash strip: strip an
optional leading `/` and run `fs.ValidPath`. -/
def dirTail (p : List Char) : Bool :=
  if 0 < p.length ∧ p.head? = some '/' then fsValidPath ⟨p.drop 1⟩
  else fsValidPath ⟨p⟩

/-- `IsValidDir` from `filename.go`: `/` is valid; otherwise the path must
end in `/`; the trailing slash is stripped, an optional leading slash is
stripped, then `fs.ValidPath`. -/
def IsValidDir (path : String) : Bool :=
  if path = "/" then true
  else if path.data.length = 0 ∨ path.data.getLast? ≠ some '/' then false
  else dirTail path.data.dropLast

/-- `s3Key` from the stream package: the object key is the path with one
leading `/` stripped. -/
def s3Key (path : String) : String :=
  if path.data.head? = some '/' then ⟨path.data.drop 1⟩ else path

example : IsValidFile "/a/b.txt" = true := by decide
example : IsValidFile "/a/" = false := by decide
example : IsValidFile "/" = false := by decide
example : IsValidDir "/" = true := by decide
example : IsValidDir "/a/" = true := by decide
example : IsValidDir "../" = false := by decide
example : IsValidDir "" = false := by decide
example : IsValidFile "" = false := by decide
example : IsValidPath "/a/b" = true := by decide
example : IsValidPath "../" = false := by decide
example : s3Key "/a/b" = "a/b" := by decide

/-! ### Go error values

`GoErr` embeds the error values the package produces: `fs.ErrNotExist`,
`fs.ErrInvalid`, wrapped `fs.PathError` values, and opaque remote errors. -/

inductive GoErr where
  | notExist
  | invalid
  | ioErr (msg : String)
  | pathErr (op : String) (path : String) (cause : GoErr)
deriving DecidableEq, Repr

/-- Go `errors.Is (·, fs.ErrNotExist)`: the structured not-exist check,
which unwraps `fs.PathError` causes. -/
def isNotExist : GoErr → Bool
  | .notExist => true
  | .pathErr _ _ cause => isNotExist cause
  | _ => false

/-! ### Remote storage model

`S3Obj` is one stored object (key plus the metadata the listing carries);
`listModel` is the faithful semantics of S3 `ListObjectsV2`: keys matching
the requested prefix and strictly greater than `startAfter`, in key order,
truncated to `maxKeys`, with a continuation token exactly when the page is
a proper prefix of the matching keys.  Requests issued by embedded code are
recorded so that "performs no network call" is a provable statement. -/

structure S3Obj where
  key : String
  size : Int
  time : Nat
deriving DecidableEq, Repr

structure ListReq where
  pfx : String
  maxKeys : Nat
  startAfter : Option String
deriving DecidableEq, Repr

structure ListResp where
  contents : List S3Obj
  keyCount : Nat
  nextToken : Bool
deriving DecidableEq, Repr

/-- `startAfter` filter of S3: keep keys strictly greater than the marker,
in the lexicographic order on key characters (S3 orders keys by bytes;
bytes and chars coincide on the ASCII keys of interest). -/
def afterOK (sa : Option String) (k : String) : Bool :=
  match sa with
  | none => true
  | some a => decide (a.data < k.data)

/-- Keys of `objs` selected by a listing request, in stored order. -/
def matchedObjs (objs : List S3Obj) (req : ListReq) : List S3Obj :=
  objs.filter fun o => req.pfx.data.isPrefixOf o.key.data && afterOK req.startAfter o.key

/-- Faithful S3 `ListObjectsV2` over bucket contents `objs` (kept sorted by
key, as S3 lists keys in lexicographic order). -/
def listModel (objs : List S3Obj) (req : ListReq) : ListResp :=
  let m := matchedObjs objs req
  let page := m.take req.maxKeys
  { contents := page
    keyCount := page.length
    nextToken := decide (page.length < m.length) }

/-- A `GetObject` / `HeadObject` / `AbortMultipartUpload` request key. -/
structure KeyReq where
  key : String
deriving DecidableEq, Repr

/-- Remote answer to `GetObject`: the body bytes and metadata, the
`NoSuchKey` signal, or another remote failure. -/
inductive GetResp where
  | ok (body : List UInt8) (size : Int) (time : Nat)
  | noSuchKey
  | err (msg : String)
deriving DecidableEq, Repr

/-- Remote answer to `HeadObject`: metadata, `NotFound`, or failure. -/
inductive HeadResp where
  | ok (size : Int) (time : Nat)
  | notFound
  | err (msg : String)
deriving DecidableEq, Repr

/-! ### Object descriptor (`info` in the source) -/

/-- The `info[T]` descriptor: only the `fs.ModeDir` bit of `fs.FileMode` is
ever set by the package, so `mode` is embedded as the is-directory bit.
Typed attributes are opaque to every claim and elided. -/
structure Info where
  path : String
  mode : Bool
  size : Int
  time : Nat
deriving DecidableEq, Repr

/-- `info.IsDir()` — `fs.FileMode.IsDir` of the embedded mode bit. -/
def Info.isDir (i : Info) : Bool := i.mode

/-- `info.Name()` returns the `path` field verbatim. -/
def Info.name (i : Info) : String := i.path

/-! ### Read stream (`reader` in the source)

`reader.lazyOpen` issues the single `GetObject` call; `Read` and `Stat`
trigger it when the body is not yet open (`fd.r == nil`). -/

structure Reader where
  path : String
  opened : Bool
  body : List UInt8
  size : Int
  time : Nat
deriving DecidableEq, Repr

/-- `newReader`: descriptor with only the path set; body not opened. -/
def newReader (path : String) : Reader :=
  { path := path, opened := false, body := [], size := 0, time := 0 }

/-- `reader.lazyOpen`: one `GetObject` call; `NoSuchKey` maps to
`fs.ErrNotExist`, any other remote failure is wrapped as
`fs.PathError{Op:"open", Path:path}`; on success the body and the
descriptor metadata are recorded. -/
def lazyOpenR (fd : Reader) (resp : GetResp) :
    (Option GoErr × Reader) × List KeyReq :=
  let req : KeyReq := { key := s3Key fd.path }
  match resp with
  | .noSuchKey => ((some .notExist, fd), [req])
  | .err e => ((some (.pathErr "open" fd.path (.ioErr e)), fd), [req])
  | .ok body size time =>
      ((none, { fd with opened := true, body := body, size := size, time := time }), [req])

/-- `reader.Read`: lazily opens on first use, then streams from the open
body (`n` bytes per call here); `resp` is the remote answer consumed if and
only if the lazy open runs. -/
def readR (fd : Reader) (resp : GetResp) (n : Nat) :
    ((Except GoErr (List UInt8)) × Reader) × List KeyReq :=
  if fd.opened then
    ((.ok (fd.body.take n), { fd with body := fd.body.drop n }), [])
  else
    match lazyOpenR fd resp with
    | ((some e, fd'), calls) => ((.error e, fd'), calls)
    | ((none, fd'), calls) =>
        ((.ok (fd'.body.take n), { fd' with body := fd'.body.drop n }), calls)

/-- `reader.Stat`: same lazy open as `Read` when not yet opened, then the
descriptor snapshot. -/
def statR (fd : Reader) (resp : GetResp) :
    ((Except GoErr Info) × Reader) × List KeyReq :=
  if fd.opened then
    ((.ok { path := fd.path, mode := false, size := fd.size, time := fd.time }, fd), [])
  else
    match lazyOpenR fd resp with
    | ((some e, fd'), calls) => ((.error e, fd'), calls)
    | ((none, fd'), calls) =>
        ((.ok { path := fd'.path, mode := false, size := fd'.size, time := fd'.time }, fd'), calls)

/-! ### Write stream (`writer` in the source)

The Go writer pipes caller bytes into a background `manager.Upload` task
through an `io.Pipe`.  The embedding sequentialises this producer/consumer
pair: `buf` is the byte sequence pushed into the conduit, and the
background task's one `Upload` call — which reads the conduit to EOF and
hence returns only once the producer side is closed — is evaluated inside
`closeW` on the full buffered sequence.  An asynchronous failure recorded
by the background task appears as a pre-set `err` field.  `uploadID` is
`fd.upload`, assigned by the background task only from a successful
`Upload` result. -/

structure WStream where
  path : String
  opened : Bool
  buf : List UInt8
  err : Option GoErr
  uploadID : String
deriving DecidableEq, Repr

/-- `newWriter` (what `FileSystem.Create` returns): nothing opened, empty
upload identifier. -/
def newWriter (path : String) : WStream :=
  { path := path, opened := false, buf := [], err := none, uploadID := "" }

/-- `writer.Write`: on first call runs `lazyOpen` (allocates the pipe and
spawns the background task); if `fd.err` is already set it returns that
error at once and pushes nothing; otherwise the bytes go into the conduit.
(The Go code re-checks `fd.err` after the pipe write; with no concurrent
failure during the call the second check is the first.) -/
def writeW (fd : WStream) (p : List UInt8) : (Nat × Option GoErr) × WStream :=
  let fd := if fd.opened = false then { fd with opened := true } else fd
  if fd.err ≠ none then ((0, fd.err), fd)
  else ((p.length, none), { fd with buf := fd.buf ++ p })

/-- `runWrites`: the caller's sequence of `Write` calls. -/
def runWrites (fd : WStream) (ws : List (List UInt8)) : WStream :=
  ws.foldl (fun f p => (writeW f p).2) fd

/-- `writer.Close`, given the collaborator's chunked-upload outcome `up` on
a full body: a recorded background error is returned as is; otherwise, when
the conduit was opened, the producer end is closed and the task joined, so
`up` is evaluated on exactly the buffered bytes — an upload error (already
wrapped by the task as `fs.PathError{Op:"write"}`) is returned, a success
stores the object (third component) and records the upload identifier.
When `Write` was never called, `Close` is a no-op and stores nothing. -/
def closeW (fd : WStream) (up : List UInt8 → Except String String) :
    Option GoErr × WStream × Option (List UInt8) :=
  if fd.err ≠ none then (fd.err, fd, none)
  else if fd.opened then
    match up fd.buf with
    | .error e =>
        (some (.pathErr "write" fd.path (.ioErr e)),
         { fd with err := some (.pathErr "write" fd.path (.ioErr e)) }, none)
    | .ok uid => (none, { fd with uploadID := uid }, some fd.buf)
  else (none, fd, none)

/-- `writer.Cancel` issues `AbortMultipartUpload` keyed by the object key
and the *recorded* `fd.upload` identifier. -/
def cancelW (fd : WStream) : KeyReq × String :=
  ({ key := s3Key fd.path }, fd.uploadID)

/-! ### File-system facade (`fs.go`) -/

/-- Result of `FileSystem.Open`: a directory descriptor or a reader. -/
inductive OpenHandle where
  | dir (path : String)
  | file (fd : Reader)
deriving DecidableEq, Repr

/-- `FileSystem.Open`: validates the path, short-circuits valid directory
paths to a directory descriptor, otherwise returns an unopened reader.  No
network request is issued. -/
def fsOpen (path : String) : Except GoErr OpenHandle × List KeyReq :=
  if IsValidPath path = false then (.error (.pathErr "open" path .invalid), [])
  else if IsValidDir path then (.ok (.dir path), [])
  else (.ok (.file (newReader path)), [])

/-- `FileSystem.Create`: validates the path as a file and returns an idle
writer; no network request. -/
def fsCreate (path : String) : Except GoErr WStream :=
  if IsValidFile path = false then .error (.pathErr "create" path .invalid)
  else .ok (newWriter path)

/-- `FileSystem.Stat`: validates the path; a valid directory path yields a
directory descriptor with zero size and time and no remote call; otherwise
one `HeadObject` call is made, with `NotFound` mapped to `fs.ErrNotExist`
and other failures wrapped as `fs.PathError{Op:"stat"}`. -/
def fsStat (path : String) (resp : HeadResp) :
    Except GoErr Info × List KeyReq :=
  if IsValidPath path = false then (.error (.pathErr "stat" path .invalid), [])
  else if IsValidDir path then
    (.ok { path := path, mode := true, size := 0, time := 0 }, [])
  else
    let req : KeyReq := { key := s3Key path }
    match resp with
    | .notFound => (.error .notExist, [req])
    | .err e => (.error (.pathErr "stat" path (.ioErr e)), [req])
    | .ok size time => (.ok { path := path, mode := false, size := size, time := time }, [req])

/-- The `s3.CopyObjectInput` issued by `FileSystem.Copy`: in the AWS API
`copySource` names the object to copy *from* and `key` the destination key
inside the mounted bucket. -/
structure CopyReq where
  key : String
  copySource : String
deriving DecidableEq, Repr

/-- `FileSystem.Copy`: validates the source path, requires the `s3://`
scheme on the target, then issues `CopyObject` with `Key := s3Key source`
and `CopySource := target` minus the scheme. -/
def fsCopy (source target : String) : Except GoErr CopyReq :=
  if IsValidPath source = false then .error (.pathErr "copy" source .invalid)
  else if ("s3://".data.isPrefixOf target.data) = false then
    .error (.pathErr "copy" target (.ioErr "s3:// prefix is required"))
  else .ok { key := s3Key source, copySource := ⟨target.data.drop 5⟩ }

/-! ### Directory enumerator (`dir.go`) -/

/-- `dd.objectToDirEntry`: the entry name is the raw key after position
`len(dd.path) - 1` (the directory path minus its leading slash is the key
prefix), the mode bits stay zero (a regular file), size and time are taken
from the listing. -/
def objectToDirEntry (dirPath : String) (o : S3Obj) : Info :=
  { path := ⟨o.key.data.drop (dirPath.data.length - 1)⟩
    mode := false
    size := o.size
    time := o.time }

/-- The `dd.readAll` pagination loop: list a page, convert its contents to
entries, stop when the page is empty or carries no continuation token,
otherwise continue with `StartAfter` set to the last key of the page.  The
loop has no bound in Go; `fuel` bounds it here, with `none` marking both
exhausted fuel and the (unreachable against `listModel`) indexing panic of
`val.Contents[cnt-1]` on an empty page. -/
def readAllGo (objs : List S3Obj) (dirPath : String) :
    Nat → ListReq → Option (List Info)
  | 0, _ => none
  | fuel + 1, req =>
    let val := listModel objs req
    let es := val.contents.map (objectToDirEntry dirPath)
    if val.keyCount = 0 ∨ val.nextToken = false then some es
    else
      match val.contents.getLast? with
      | none => none
      | some lastObj =>
          (readAllGo objs dirPath fuel { req with startAfter := some lastObj.key }).map
            (es ++ ·)

/-- `FileSystem.ReadDir`: validates the directory path, then runs the
`readAll` loop with prefix `s3Key path` and page size `lslimit`; the fuel
`objs.length + 1` suffices against the faithful remote. -/
def fsReadDir (objs : List S3Obj) (path : String) (lslimit : Nat) :
    Except GoErr (List Info) :=
  if IsValidDir path = false then .error (.pathErr "readdir" path .invalid)
  else
    match readAllGo objs path (objs.length + 1)
        { pfx := s3Key path, maxKeys := lslimit, startAfter := none } with
    | none => .error (.pathErr "readdir" path (.ioErr "loop"))
    | some es => .ok es

/-! ### Lazy sequence cursor (`internal/seq/seq.go`)

State and transitions of `Seq`; every transition also returns the list of
`ListObjectsV2` requests it issued. -/

structure SeqSt where
  q : ListReq
  idx : Nat
  items : Option (List String)
  stream : Bool
  err : Bool
deriving DecidableEq, Repr

/-- `seq.New`: no page buffered, streaming mode. -/
def newSeq (q : ListReq) : SeqSt :=
  { q := q, idx := 0, items := none, stream := true, err := false }

/-- `Seq.seed`: refuses without I/O when a page is buffered and no
`StartAfter` marker is pending (end of stream); otherwise issues one
listing call; a zero-key page is end of stream (state unchanged); else the
page keys are buffered, `at` resets, and `StartAfter` becomes the last key
of the page when a continuation token came, or is cleared when none did.
The boolean result is `err == nil` of the Go call. -/
def seedS (objs : List S3Obj) (s : SeqSt) : Bool × SeqSt × List ListReq :=
  if s.items ≠ none ∧ s.q.startAfter = none then (false, s, [])
  else
    let val := listModel objs s.q
    if val.keyCount = 0 then (false, s, [s.q])
    else
      let its := (val.contents.map S3Obj.key)
      let sa1 := if 0 < its.length ∧ val.nextToken then its.getLast? else s.q.startAfter
      let sa2 := if val.nextToken = false then none else sa1
      (true,
       { s with idx := 0, items := some its, q := { s.q with startAfter := sa2 } },
       [s.q])

/-- `Seq.maybeSeed`: in bounded mode (`stream == false`) always end of
stream without I/O; otherwise `seed`. -/
def maybeSeedS (objs : List S3Obj) (s : SeqSt) : Bool × SeqSt × List ListReq :=
  if s.stream = false then (false, s, [])
  else seedS objs s

/-- `Seq.Tail`: advance `at`; a recorded error is terminal; an unseeded
cursor seeds; a consumed buffer re-seeds through `maybeSeed`; otherwise the
buffered page still has elements. -/
def tailS (objs : List S3Obj) (s : SeqSt) : Bool × SeqSt × List ListReq :=
  let s := { s with idx := s.idx + 1 }
  if s.err then (false, s, [])
  else
    match s.items with
    | none => seedS objs s
    | some its =>
        if its.length ≤ s.idx then maybeSeedS objs s
        else (true, s, [])

/-- `Seq.Cursor`: the `HashKey` of the resumption cursor — the pending
`StartAfter` marker, or the empty marker when none is pending. -/
def cursorS (s : SeqSt) : Option String := s.q.startAfter

/-- `Seq.Limit`: sets the page size to `n` and leaves streaming mode. -/
def limitS (n : Nat) (s : SeqSt) : SeqSt :=
  { s with q := { s.q with maxKeys := n }, stream := false }

/-- Iterated `Tail` calls, collecting every request issued and every
returned boolean. -/
def runTails (objs : List S3Obj) : Nat → SeqSt → SeqSt × List ListReq × List Bool
  | 0, s => (s, [], [])
  | n + 1, s =>
    let (b, s', calls) := tailS objs s
    let (s'', callsRest, bs) := runTails objs n s'
    (s'', calls ++ callsRest, b :: bs)


/-- Bucket contents listed in S3 key order: strictly increasing keys
(lexicographic on characters). -/
def keySorted (objs : List S3Obj) : Prop :=
  List.Pairwise (fun a b => a.key.data < b.key.data) objs

instance (objs : List S3Obj) : Decidable (keySorted objs) := by
  unfold keySorted; infer_instance

/-- The interior condition of the spec's directory-path rule, for
comparison with `IsValidDir`: the path stripped of its trailing slash and
of an optional leading slash must be a clean relative path. -/
def dirInterior (path : String) : Bool :=
  if 0 < path.data.dropLast.length ∧ path.data.dropLast.head? = some '/' then
    fsValidPath ⟨path.data.dropLast.drop 1⟩
  else fsValidPath ⟨path.data.dropLast⟩

/-- A concrete chunked-upload collaborator used by witnesses: accepts
exactly the body `"hi!"` and then reports upload id `"uid-1"`. -/
def upDemo (b : List UInt8) : Except String String :=
  if b = [104, 105, 33] then .ok "uid-1" else .error "unexpected body"

/-- The cursor state right after a bounded cursor's first (and only) page
fetch: the page's keys buffered, position reset, `StartAfter` at the last
key of the page, bounded mode. -/
def seededBounded (objs : List S3Obj) (pfx : String) (k : Nat) : SeqSt :=
  { q := { pfx := pfx, maxKeys := k,
           startAfter := (((matchedObjs objs ⟨pfx, k, none⟩).take k).map S3Obj.key).getLast? }
    idx := 0
    items := some (((matchedObjs objs ⟨pfx, k, none⟩).take k).map S3Obj.key)
    stream := false
    err := false }

/-- Concrete bucket contents used by witnesses: keys `a/1`, `a/2`, `a/3`. -/
def objsDemo : List S3Obj :=
  [{ key := "a/1", size := 100, time := 7 },
   { key := "a/2", size := 200, time := 8 },
   { key := "a/3", size := 300, time := 9 }]

/-! ## Helper lemmas -/

lemma data_ne_nil_of_getLast?_slash {p : String} (h : p.data.getLast? = some '/') :
    p.data ≠ [] := by
  intro he
  rw [he] at h
  exact Option.noConfusion h

lemma data_ne_nil_of_head?_slash {p : String} (h : p.data.head? = some '/') :
    p.data ≠ [] := by
  intro he
  rw [he] at h
  exact Option.noConfusion h

lemma ne_root_of_getLast?_ne_slash {p : String} (h : p.data.getLast? ≠ some '/') :
    p ≠ "/" := by
  intro he
  subst he
  exact h (by decide)


/-- A file-valid path is path-valid: the trailing-slash strip in
`IsValidPath` is the identity on it and both validators run the same
interior check. -/
lemma isValidPath_of_isValidFile {p : String} (h : IsValidFile p = true) :
    IsValidPath p = true := by
  unfold IsValidFile at h
  by_cases h0 : p.data.length = 0
  · rw [if_pos h0] at h; exact absurd h (by simp)
  · rw [if_neg h0] at h
    by_cases h1 : p.data.getLast? = some '/'
    · rw [if_pos h1] at h; exact absurd h (by simp)
    · rw [if_neg h1] at h
      unfold IsValidPath
      rw [if_neg (ne_root_of_getLast?_ne_slash h1)]
      rw [if_neg (fun hc : _ ∧ _ => h1 hc.2)]
      unfold pathTail
      rw [if_neg h0]
      by_cases h2 : p.data.head? = some '/'
      · rw [if_pos h2] at h ⊢; exact h
      · rw [if_neg h2] at h ⊢; exact h

/-- A file-valid path is not directory-valid (it has no trailing slash). -/
lemma not_isValidDir_of_isValidFile {p : String} (h : IsValidFile p = true) :
    IsValidDir p = false := by
  unfold IsValidFile at h
  by_cases h0 : p.data.length = 0
  · rw [if_pos h0] at h; exact absurd h (by simp)
  · rw [if_neg h0] at h
    by_cases h1 : p.data.getLast? = some '/'
    · rw [if_pos h1] at h; exact absurd h (by simp)
    · unfold IsValidDir
      rw [if_neg (ne_root_of_getLast?_ne_slash h1), if_pos (Or.inr h1)]

/-- A directory-valid path is path-valid: both strip the trailing slash
and then run the same interior check. -/
lemma isValidPath_of_isValidDir {p : String} (h : IsValidDir p = true) :
    IsValidPath p = true := by
  unfold IsValidDir at h
  by_cases hr : p = "/"
  · unfold IsValidPath; rw [if_pos hr]
  · rw [if_neg hr] at h
    by_cases h1 : p.data.length = 0 ∨ p.data.getLast? ≠ some '/'
    · rw [if_pos h1] at h; exact absurd h (by simp)
    · rw [if_neg h1] at h
      push_neg at h1
      obtain ⟨h0, hsl⟩ := h1
      have hne : p.data ≠ [] := fun he => h0 (by rw [he]; rfl)
      unfold IsValidPath
      rw [if_neg hr, if_pos ⟨hne, hsl⟩]
      unfold pathTail
      unfold dirTail at h
      by_cases hz : p.data.dropLast.length = 0
      · exfalso
        rw [if_neg (fun hc : _ ∧ _ => by omega)] at h
        rw [List.length_eq_zero.mp hz] at h
        exact absurd h (by decide)
      · rw [if_neg hz]
        have hpos : 0 < p.data.dropLast.length := Nat.pos_of_ne_zero hz
        by_cases hh : p.data.dropLast.head? = some '/'
        · rw [if_pos ⟨hpos, hh⟩] at h
          rw [if_pos hh]
          exact h
        · rw [if_neg (fun hc : _ ∧ _ => hh hc.2)] at h
          rw [if_neg hh]
          exact h

/-! ## Claims -/

/-- C9 counterexample: `"../"` ends in `/`, yet `IsValidDir "../" = false`
(its interior `".."` is rejected by `fs.ValidPath`), refuting the clause
that every path ending in `/` is a valid directory. -/
theorem c9_trailing_slash_not_always_dir :
    ("../" : String).data.getLast? = some '/' ∧ IsValidDir "../" = false := by
  constructor
  · decide
  · decide

/-- C9 (amended): a valid absolute file path (leading `/`, no trailing `/`,
clean interior) satisfies `IsValidFile` and not `IsValidDir`; a path ending
in `/` never satisfies `IsValidFile`, and satisfies `IsValidDir` exactly
when it is `"/"` or its interior is clean — not unconditionally; `"/"` is a
valid directory and not a valid file; the empty string is invalid for
both. -/
theorem c9_file_dir_classification (p : String) :
    (p.data.head? = some '/' → p.data.getLast? ≠ some '/' →
      fsValidPath ⟨p.data.drop 1⟩ = true →
      IsValidFile p = true ∧ IsValidDir p = false)
  ∧ (p.data.getLast? = some '/' →
      IsValidFile p = false ∧
      (IsValidDir p = true ↔ (p = "/" ∨ dirInterior p = true)))
  ∧ IsValidDir "/" = true ∧ IsValidFile "/" = false
  ∧ IsValidFile "" = false ∧ IsValidDir "" = false := by
  refine ⟨?_, ?_, by decide, by decide, by decide, by decide⟩
  · intro h1 h2 h3
    have hne : p.data ≠ [] := data_ne_nil_of_head?_slash h1
    constructor
    · unfold IsValidFile
      rw [if_neg (fun hz => hne (List.length_eq_zero.mp hz)), if_neg h2, if_pos h1]
      exact h3
    · unfold IsValidDir
      rw [if_neg (ne_root_of_getLast?_ne_slash h2), if_pos (Or.inr h2)]
  · intro h1
    have hne : p.data ≠ [] := data_ne_nil_of_getLast?_slash h1
    constructor
    · unfold IsValidFile
      rw [if_neg (fun hz => hne (List.length_eq_zero.mp hz)), if_pos h1]
    · unfold IsValidDir
      by_cases hr : p = "/"
      · rw [if_pos hr]
        simp [hr]
      · rw [if_neg hr]
        rw [if_neg (by push_neg; exact ⟨fun hz => hne (List.length_eq_zero.mp hz), h1⟩)]
        unfold dirTail dirInterior
        simp [hr]

/-- C9 witness: the amended classification evaluated at `/a/b` (file side)
and at `x/` (directory side). -/
theorem c9_file_dir_classification_witness :
    (IsValidFile "/a/b" = true ∧ IsValidDir "/a/b" = false) ∧
    (IsValidFile "x/" = false ∧
      (IsValidDir "x/" = true ↔ (("x/" : String) = "/" ∨ dirInterior "x/" = true))) :=
  ⟨(c9_file_dir_classification "/a/b").1 (by decide) (by decide) (by decide),
   (c9_file_dir_classification "x/").2.1 (by decide)⟩

/-- C10: `Stat` on a path accepted by `IsValidDir` returns, for every
remote behaviour, a descriptor with the directory bit set, size `0` and
zero modification time, and issues no remote request at all — in
particular it never reports `NotExist` for a directory path. -/
theorem c10_stat_dir_no_network (path : String) (resp : HeadResp)
    (h : IsValidDir path = true) :
    fsStat path resp = (.ok { path := path, mode := true, size := 0, time := 0 }, [])
    ∧ Info.isDir { path := path, mode := true, size := 0, time := 0 } = true := by
  refine ⟨?_, rfl⟩
  unfold fsStat
  rw [isValidPath_of_isValidDir h]
  rw [if_neg (by simp), if_pos h]

/-- C10 witness: `Stat "/a/"` against a remote that would answer
`NotFound` still yields the directory descriptor without any request. -/
theorem c10_stat_dir_no_network_witness :
    fsStat "/a/" .notFound =
      (.ok { path := "/a/", mode := true, size := 0, time := 0 }, [])
    ∧ Info.isDir { path := "/a/", mode := true, size := 0, time := 0 } = true :=
  c10_stat_dir_no_network "/a/" .notFound (by decide)

/-- C3: for a valid file path, `Open` succeeds with an unopened reader and
issues no remote request, whatever the remote holds; the first `Read` (or
`Stat`) issues exactly the one `GetObject` request for the path's key; a
`NoSuchKey` answer surfaces as an error passing the structured
`errors.Is(err, fs.ErrNotExist)` check, and any other remote failure is
wrapped as `fs.PathError{Op:"open", Path:path}`. -/
theorem c3_open_lazy (path : String) (h : IsValidFile path = true) :
    fsOpen path = (.ok (.file (newReader path)), [])
  ∧ (∀ resp n, (readR (newReader path) resp n).2 = [{ key := s3Key path }])
  ∧ (∀ resp, (statR (newReader path) resp).2 = [{ key := s3Key path }])
  ∧ (∀ n, (readR (newReader path) .noSuchKey n).1.1 = .error .notExist
        ∧ isNotExist GoErr.notExist = true)
  ∧ (∀ msg n, (readR (newReader path) (.err msg) n).1.1 =
        .error (.pathErr "open" path (.ioErr msg)))
  ∧ (∀ body size time n, (readR (newReader path) (.ok body size time) n).1.1 =
        .ok (body.take n)) := by
  refine ⟨?_, ?_, ?_, ?_, ?_, ?_⟩
  · unfold fsOpen
    rw [isValidPath_of_isValidFile h, not_isValidDir_of_isValidFile h]
    rfl
  · intro resp n
    cases resp <;> rfl
  · intro resp
    cases resp <;> rfl
  · intro n
    exact ⟨rfl, rfl⟩
  · intro msg n
    rfl
  · intro body size time n
    rfl

/-- C3 witness: opening the absent `/missing.txt` succeeds without
network; the first read issues the single `GetObject` and fails the
structured not-exist check. -/
theorem c3_open_lazy_witness :
    fsOpen "/missing.txt" = (.ok (.file (newReader "/missing.txt")), [])
  ∧ (readR (newReader "/missing.txt") .noSuchKey 16).2 = [{ key := "missing.txt" }]
  ∧ (readR (newReader "/missing.txt") .noSuchKey 16).1.1 = .error .notExist := by
  have h := c3_open_lazy "/missing.txt" (by decide)
  exact ⟨h.1, by rw [h.2.1 .noSuchKey 16]; decide, (h.2.2.2.1 16).1⟩

/-- C5: once the background task has recorded an error into `lastError`,
every subsequent `Write` returns exactly that stored error with zero bytes
written and leaves the stream — in particular the conduit buffer —
untouched. -/
theorem c5_write_after_error (fd : WStream) (p : List UInt8) (e : GoErr)
    (h1 : fd.opened = true) (h2 : fd.err = some e) :
    writeW fd p = ((0, some e), fd) := by
  unfold writeW
  rw [h1]
  simp only [Bool.true_eq_false, if_false]
  rw [if_pos (by rw [h2]; exact fun hc => Option.noConfusion hc)]
  rw [h2]

/-- C5 witness: a writer with a recorded upload failure rejects the next
`Write` with that same error and an unchanged state. -/
theorem c5_write_after_error_witness :
    writeW
      { path := "/a", opened := true, buf := [1], err := some (.ioErr "boom"),
        uploadID := "" } [2]
    = ((0, some (.ioErr "boom")),
       { path := "/a", opened := true, buf := [1], err := some (.ioErr "boom"),
         uploadID := "" }) :=
  c5_write_after_error _ _ _ rfl rfl

/-- One error-free `Write` opens the conduit (idempotently) and appends the
bytes to it. -/
lemma writeW_ok (fd : WStream) (p : List UInt8) (h : fd.err = none) :
    writeW fd p = ((p.length, none), { fd with opened := true, buf := fd.buf ++ p }) := by
  obtain ⟨path, opened, buf, err, uploadID⟩ := fd
  subst h
  cases opened <;> simp [writeW]

/-- An error-free run of `Write` calls leaves the stream open (when at
least one call happened) with the concatenation of all payloads in the
conduit, and everything else untouched. -/
lemma runWrites_ok : ∀ (ws : List (List UInt8)) (fd : WStream), fd.err = none →
    runWrites fd ws =
      if ws = [] then fd
      else { fd with opened := true, buf := fd.buf ++ ws.flatten } := by
  intro ws
  induction ws with
  | nil => intro fd _; rfl
  | cons p ws ih =>
    intro fd h
    have step : runWrites fd (p :: ws) =
        runWrites { fd with opened := true, buf := fd.buf ++ p } ws := by
      unfold runWrites
      rw [List.foldl_cons, writeW_ok fd p h]
    rw [step, ih { fd with opened := true, buf := fd.buf ++ p } h]
    by_cases hw : ws = []
    · subst hw
      simp [List.flatten]
    · rw [if_neg hw, if_neg (by simp)]
      simp [List.flatten, List.append_assoc]

/-- C1: after a non-empty sequence of `Write` calls with bytes `B` in
total, `Close` returns `nil` exactly when the chunked upload of the full
conduit contents — exactly `B` — succeeded; in that case the object is
materialized with exactly `B`; and an error recorded by the background
upload task is what `Close` returns, with nothing materialized. -/
theorem c1_close_returns_upload_outcome (path : String) (ws : List (List UInt8))
    (up : List UInt8 → Except String String) (hw : ws ≠ []) :
    ((closeW (runWrites (newWriter path) ws) up).1 = none
       ↔ (up ws.flatten).isOk = true)
  ∧ ((closeW (runWrites (newWriter path) ws) up).1 = none →
       (closeW (runWrites (newWriter path) ws) up).2.2 = some ws.flatten)
  ∧ (∀ e, up ws.flatten = .error e →
       (closeW (runWrites (newWriter path) ws) up).1 =
           some (.pathErr "write" path (.ioErr e))
       ∧ (closeW (runWrites (newWriter path) ws) up).2.2 = none) := by
  have hfd : runWrites (newWriter path) ws =
      { path := path, opened := true, buf := [] ++ ws.flatten, err := none,
        uploadID := "" } := by
    rw [runWrites_ok ws (newWriter path) rfl, if_neg hw]
    rfl
  rw [hfd]
  cases hu : up ws.flatten with
  | error e => simp [closeW, hu, Except.isOk, Except.toBool]
  | ok uid => simp [closeW, hu, Except.isOk, Except.toBool]

/-- C1 witness: writing `"hi!"` in two chunks against a collaborator that
accepts exactly that body: `Close` reports success and the object holds
exactly those bytes. -/
theorem c1_close_returns_upload_outcome_witness :
    ((closeW (runWrites (newWriter "/a/b.txt") [[104], [105, 33]]) upDemo).1 = none
       ↔ (upDemo [104, 105, 33]).isOk = true)
  ∧ ((closeW (runWrites (newWriter "/a/b.txt") [[104], [105, 33]]) upDemo).1 = none →
       (closeW (runWrites (newWriter "/a/b.txt") [[104], [105, 33]]) upDemo).2.2 =
         some [104, 105, 33]) :=
  ⟨(c1_close_returns_upload_outcome "/a/b.txt" [[104], [105, 33]] upDemo (by decide)).1,
   (c1_close_returns_upload_outcome "/a/b.txt" [[104], [105, 33]] upDemo (by decide)).2.1⟩

/-- C2: whatever `Write` calls have happened on a fresh writer for
`/file`, the recorded upload identifier is still the empty string — the
background task assigns it only from a completed `Upload` call, which
returns only after `Close` ends the conduit — so `Cancel` issues
`AbortMultipartUpload` with `UploadId == ""`, not with the identifier of
the in-flight upload. -/
theorem c2_cancel_aborts_with_empty_upload_id (ws : List (List UInt8)) :
    (runWrites (newWriter "/file") ws).uploadID = ""
    ∧ cancelW (runWrites (newWriter "/file") ws) = ({ key := "file" }, "") := by
  rw [runWrites_ok ws (newWriter "/file") rfl]
  by_cases hw : ws = []
  · rw [if_pos hw]
    exact ⟨rfl, by decide⟩
  · rw [if_neg hw]
    refine ⟨rfl, ?_⟩
    unfold cancelW
    simp only [newWriter]
    rw [show s3Key "/file" = "file" from by decide]

/-- C8: `Copy "/file" "s3://test/file"` issues `CopyObject` with the
destination `Key` set to the *source* path's key and `CopySource` set to
the *target* URL — the AWS call copies `test/file` onto `file`, the
reverse of the claimed (and documented) source-to-target direction. -/
theorem c8_copy_request_inverted :
    fsCopy "/file" "s3://test/file" =
      .ok { key := "file", copySource := "test/file" } := by rfl

/-! ## Pagination lemmas (`dd.readAll` over the faithful listing) -/

lemma listModel_contents (objs : List S3Obj) (req : ListReq) :
    (listModel objs req).contents = (matchedObjs objs req).take req.maxKeys := rfl

lemma listModel_keyCount (objs : List S3Obj) (req : ListReq) :
    (listModel objs req).keyCount = ((matchedObjs objs req).take req.maxKeys).length := rfl

lemma listModel_nextToken (objs : List S3Obj) (req : ListReq) :
    (listModel objs req).nextToken =
      decide (((matchedObjs objs req).take req.maxKeys).length <
        (matchedObjs objs req).length) := rfl

/-- The page size plays no role in which keys match a request. -/
lemma matchedObjs_maxKeys (objs : List S3Obj) (pfx : String) (mk mk' : Nat)
    (sa : Option String) :
    matchedObjs objs ⟨pfx, mk, sa⟩ = matchedObjs objs ⟨pfx, mk', sa⟩ := rfl

lemma mem_of_getLast?_eq {α : Type} : ∀ {l : List α} {a : α},
    l.getLast? = some a → a ∈ l := by
  intro l
  induction l with
  | nil => intro a h; cases h
  | cons x xs ih =>
    intro a h
    cases xs with
    | nil =>
      simp only [List.getLast?_singleton, Option.some.injEq] at h
      subst h
      exact List.mem_cons_self x []
    | cons y ys =>
      rw [List.getLast?_cons_cons] at h
      exact List.mem_cons_of_mem x (ih h)

/-- In a key-sorted list every element's key is at most the last key. -/
lemma key_le_getLast : ∀ (l : List S3Obj),
    List.Pairwise (fun a b : S3Obj => a.key.data < b.key.data) l →
    ∀ la, l.getLast? = some la → ∀ x ∈ l, x.key.data ≤ la.key.data := by
  intro l
  induction l with
  | nil => intro _ la h; cases h
  | cons a xs ih =>
    intro hp la hl x hx
    cases xs with
    | nil =>
      simp only [List.getLast?_singleton, Option.some.injEq] at hl
      subst hl
      rcases List.mem_singleton.mp hx with h
      subst h
      exact le_refl _
    | cons b ys =>
      rw [List.getLast?_cons_cons] at hl
      have hla_mem : la ∈ b :: ys := mem_of_getLast?_eq hl
      rcases List.mem_cons.mp hx with h | h
      · subst h
        exact le_of_lt ((List.pairwise_cons.mp hp).1 la hla_mem)
      · exact ih (List.pairwise_cons.mp hp).2 la hl x h

/-- Re-listing with `StartAfter` set to the last key of the current page
selects exactly the keys after that page: the matched suffix. -/
lemma matched_after_getLast (objs : List S3Obj)
    (hs : keySorted objs) (pfx : String) (mk mk' : Nat) (sa : Option String)
    (n : Nat) (la : S3Obj)
    (hla : ((matchedObjs objs ⟨pfx, mk, sa⟩).take n).getLast? = some la) :
    matchedObjs objs ⟨pfx, mk', some la.key⟩ =
      (matchedObjs objs ⟨pfx, mk, sa⟩).drop n := by
  have hm_sorted : List.Pairwise (fun a b : S3Obj => a.key.data < b.key.data)
      (matchedObjs objs ⟨pfx, mk, sa⟩) :=
    List.Pairwise.sublist (List.filter_sublist _) hs
  have hla_take : la ∈ (matchedObjs objs ⟨pfx, mk, sa⟩).take n := mem_of_getLast?_eq hla
  have hla_m : la ∈ matchedObjs objs ⟨pfx, mk, sa⟩ :=
    List.Sublist.mem hla_take (List.take_sublist n _)
  have hla_sa : afterOK sa la.key = true :=
    (Bool.and_eq_true .. |>.mp (List.mem_filter.mp hla_m).2).2
  -- step 1: against the whole bucket, filtering after `la` refines the
  -- original request's filter
  have step1 : matchedObjs objs ⟨pfx, mk', some la.key⟩ =
      objs.filter (fun o =>
        decide (la.key.data < o.key.data) &&
        (pfx.data.isPrefixOf o.key.data && afterOK sa o.key)) := by
    apply List.filter_congr
    intro o _
    show (pfx.data.isPrefixOf o.key.data && afterOK (some la.key) o.key) = _
    have hun : afterOK (some la.key) o.key = decide (la.key.data < o.key.data) := rfl
    by_cases hlt : la.key.data < o.key.data
    · have hsa : afterOK sa o.key = true := by
        cases sa with
        | none => rfl
        | some a =>
          have ha : a.data < la.key.data := of_decide_eq_true hla_sa
          exact decide_eq_true (lt_trans ha hlt)
      rw [hun, hsa, decide_eq_true hlt]
      simp
    · rw [hun, decide_eq_false hlt]
      simp
  rw [step1, ← List.filter_filter]
  show (matchedObjs objs ⟨pfx, mk, sa⟩).filter
      (fun o => decide (la.key.data < o.key.data)) = _
  conv_lhs => rw [← List.take_append_drop n (matchedObjs objs ⟨pfx, mk, sa⟩)]
  rw [List.filter_append]
  have htake : ((matchedObjs objs ⟨pfx, mk, sa⟩).take n).filter
      (fun o => decide (la.key.data < o.key.data)) = [] := by
    apply List.filter_eq_nil_iff.mpr
    intro x hx
    have hxle : x.key.data ≤ la.key.data :=
      key_le_getLast _ (List.Pairwise.sublist (List.take_sublist n _) hm_sorted) la hla x hx
    simp only [decide_eq_true_eq]
    exact not_lt.mpr hxle
  have hdrop : ((matchedObjs objs ⟨pfx, mk, sa⟩).drop n).filter
      (fun o => decide (la.key.data < o.key.data)) =
      (matchedObjs objs ⟨pfx, mk, sa⟩).drop n := by
    apply List.filter_eq_self.mpr
    intro y hy
    have hcross := (List.pairwise_append.mp (by
      rw [List.take_append_drop n (matchedObjs objs ⟨pfx, mk, sa⟩)]
      exact hm_sorted)).2.2
    exact decide_eq_true (hcross la hla_take y hy)
  rw [htake, hdrop, List.nil_append]

/-- Unfolding of one `readAll` loop iteration. -/
lemma readAllGo_succ (objs : List S3Obj) (dirPath : String) (fuel : Nat)
    (req : ListReq) :
    readAllGo objs dirPath (fuel + 1) req =
      if (listModel objs req).keyCount = 0 ∨ (listModel objs req).nextToken = false
      then some ((listModel objs req).contents.map (objectToDirEntry dirPath))
      else
        match (listModel objs req).contents.getLast? with
        | none => none
        | some lastObj =>
            (readAllGo objs dirPath fuel { req with startAfter := some lastObj.key }).map
              (((listModel objs req).contents.map (objectToDirEntry dirPath)) ++ ·) := rfl

lemma listModel_contents2 (objs : List S3Obj) (pfx : String) (mk : Nat)
    (sa : Option String) :
    (listModel objs ⟨pfx, mk, sa⟩).contents =
      (matchedObjs objs ⟨pfx, mk, sa⟩).take mk := rfl

lemma listModel_keyCount2 (objs : List S3Obj) (pfx : String) (mk : Nat)
    (sa : Option String) :
    (listModel objs ⟨pfx, mk, sa⟩).keyCount =
      ((matchedObjs objs ⟨pfx, mk, sa⟩).take mk).length := rfl

lemma listModel_nextToken2 (objs : List S3Obj) (pfx : String) (mk : Nat)
    (sa : Option String) :
    (listModel objs ⟨pfx, mk, sa⟩).nextToken =
      decide (((matchedObjs objs ⟨pfx, mk, sa⟩).take mk).length <
        (matchedObjs objs ⟨pfx, mk, sa⟩).length) := rfl

/-- With a positive page size, sorted bucket contents and enough fuel, the
`readAll` loop returns exactly the matched keys, in order, as entries. -/
lemma readAllGo_spec (objs : List S3Obj) (dirPath : String) (psz : Nat)
    (hs : keySorted objs) (hpsz : 1 ≤ psz) (pfx : String) :
    ∀ fuel (sa : Option String),
      (matchedObjs objs ⟨pfx, psz, sa⟩).length < fuel →
      readAllGo objs dirPath fuel ⟨pfx, psz, sa⟩ =
        some ((matchedObjs objs ⟨pfx, psz, sa⟩).map (objectToDirEntry dirPath)) := by
  intro fuel
  induction fuel with
  | zero => intro sa h; exact absurd h (Nat.not_lt_zero _)
  | succ fuel ih =>
    intro sa hlen
    rw [readAllGo_succ]
    by_cases hm0 : matchedObjs objs ⟨pfx, psz, sa⟩ = []
    · rw [if_pos (Or.inl (by rw [listModel_keyCount2, hm0]; simp))]
      rw [listModel_contents2, hm0]
      simp
    · by_cases hbig : (matchedObjs objs ⟨pfx, psz, sa⟩).length ≤ psz
      · have htake : (matchedObjs objs ⟨pfx, psz, sa⟩).take psz =
            matchedObjs objs ⟨pfx, psz, sa⟩ := List.take_of_length_le hbig
        rw [if_pos (Or.inr (by
          rw [listModel_nextToken2, htake]
          exact decide_eq_false (lt_irrefl _)))]
        rw [listModel_contents2, htake]
      · have hlt : psz < (matchedObjs objs ⟨pfx, psz, sa⟩).length := lt_of_not_le hbig
        have hlen_take : ((matchedObjs objs ⟨pfx, psz, sa⟩).take psz).length = psz := by
          rw [List.length_take]
          exact min_eq_left (le_of_lt hlt)
        rw [if_neg (by
          rw [listModel_keyCount2, listModel_nextToken2, hlen_take]
          push_neg
          exact ⟨by omega, by simpa using hlt⟩)]
        have hne : (matchedObjs objs ⟨pfx, psz, sa⟩).take psz ≠ [] := by
          intro he
          rw [he] at hlen_take
          simp at hlen_take
          omega
        obtain ⟨la, hla⟩ :=
          Option.isSome_iff_exists.mp (List.getLast?_isSome.mpr hne)
        rw [listModel_contents2, hla]
        show (readAllGo objs dirPath fuel ⟨pfx, psz, some la.key⟩).map
            (((matchedObjs objs ⟨pfx, psz, sa⟩).take psz).map (objectToDirEntry dirPath) ++ ·)
          = _
        have hdrop := matched_after_getLast objs hs pfx psz psz sa psz la hla
        have hlen2 : (matchedObjs objs ⟨pfx, psz, some la.key⟩).length < fuel := by
          rw [hdrop, List.length_drop]
          omega
        rw [ih (some la.key) hlen2, hdrop]
        refine congrArg some ?_
        show List.map (objectToDirEntry dirPath)
            ((matchedObjs objs ⟨pfx, psz, sa⟩).take psz) ++ _ = _
        rw [← List.map_append, List.take_append_drop]

/-- C4: over sorted bucket contents and any positive page size, `ReadDir`
on an absolute directory path returns exactly the matched keys — one entry
per key under the prefix, in order, no duplicates, no omissions — each
entry named by the portion of the raw key after the directory path's key
prefix (`key = s3Key(path) ++ name`), and none of them a directory. -/
theorem c4_readdir_exact (objs : List S3Obj) (path : String) (psz : Nat)
    (hs : keySorted objs) (hpsz : 1 ≤ psz) (hd : IsValidDir path = true)
    (habs : path.data.head? = some '/') :
    fsReadDir objs path psz =
      .ok ((matchedObjs objs ⟨s3Key path, psz, none⟩).map (objectToDirEntry path))
  ∧ ((matchedObjs objs ⟨s3Key path, psz, none⟩).map (objectToDirEntry path)).length
      = (matchedObjs objs ⟨s3Key path, psz, none⟩).length
  ∧ (∀ e ∈ (matchedObjs objs ⟨s3Key path, psz, none⟩).map (objectToDirEntry path),
        e.isDir = false)
  ∧ (∀ o ∈ matchedObjs objs ⟨s3Key path, psz, none⟩,
        (s3Key path).data ++ (objectToDirEntry path o).path.data = o.key.data)
  ∧ (((matchedObjs objs ⟨s3Key path, psz, none⟩).map (objectToDirEntry path)).map
        Info.name).Nodup := by
  have hkey : (s3Key path).data = path.data.drop 1 := by
    unfold s3Key
    rw [if_pos habs]
  have hklen : (s3Key path).data.length = path.data.length - 1 := by
    rw [hkey, List.length_drop]
  have hm_sorted : List.Pairwise (fun a b : S3Obj => a.key.data < b.key.data)
      (matchedObjs objs ⟨s3Key path, psz, none⟩) :=
    List.Pairwise.sublist (List.filter_sublist _) hs
  have hname : ∀ o ∈ matchedObjs objs ⟨s3Key path, psz, none⟩,
      (s3Key path).data ++ o.key.data.drop (path.data.length - 1) = o.key.data := by
    intro o ho
    have hpfx : (s3Key path).data.isPrefixOf o.key.data = true :=
      (Bool.and_eq_true .. |>.mp (List.mem_filter.mp ho).2).1
    obtain ⟨t, ht⟩ := List.isPrefixOf_iff_prefix.mp hpfx
    rw [← ht, ← hklen, List.drop_left]
  refine ⟨?_, by simp, ?_, ?_, ?_⟩
  · unfold fsReadDir
    rw [hd, if_neg (by simp)]
    rw [readAllGo_spec objs path psz hs hpsz (s3Key path) (objs.length + 1) none
        (Nat.lt_succ_of_le (List.length_filter_le _ _))]
  · intro e he
    obtain ⟨o, _, rfl⟩ := List.mem_map.mp he
    rfl
  · exact hname
  · rw [List.map_map]
    show List.Pairwise _ _
    rw [List.pairwise_map]
    refine List.Pairwise.imp_of_mem ?_ hm_sorted
    intro a b ha hb hlt heq
    have hdata : a.key.data.drop (path.data.length - 1) =
        b.key.data.drop (path.data.length - 1) := congrArg String.data heq
    have hk : a.key.data = b.key.data := by
      rw [← hname a ha, ← hname b hb, hdata]
    rw [hk] at hlt
    exact lt_irrefl _ hlt

/-- C4 witness: keys `a/1, a/2, a/3` listed as `/a/` with page size `2`
(smaller than the three stored keys) yield exactly the entries `1`, `2`,
`3`, in order, each a regular file. -/
theorem c4_readdir_exact_witness :
    fsReadDir objsDemo "/a/" 2 =
      .ok [{ path := "1", mode := false, size := 100, time := 7 },
           { path := "2", mode := false, size := 200, time := 8 },
           { path := "3", mode := false, size := 300, time := 9 }] := by
  rw [(c4_readdir_exact objsDemo "/a/" 2 (by decide) (by decide) (by decide)
      (by decide)).1]
  rfl

/-! ## Lazy sequence cursor lemmas -/

/-- In bounded mode with a buffered page, `Tail` never issues a listing
call and preserves the bounded-with-page shape. -/
lemma tailS_no_fetch (objs : List S3Obj) (s : SeqSt) (h1 : s.stream = false)
    (h2 : s.items ≠ none) :
    (tailS objs s).2.2 = [] ∧ (tailS objs s).2.1.stream = false
    ∧ (tailS objs s).2.1.items = s.items := by
  obtain ⟨q, idx, items, stream, err⟩ := s
  subst h1
  cases items with
  | none => exact absurd rfl h2
  | some its =>
    cases err with
    | true => exact ⟨rfl, rfl, rfl⟩
    | false =>
      by_cases hlen : its.length ≤ idx + 1
      · simp [tailS, maybeSeedS, hlen]
      · simp [tailS, hlen]

/-- Iterating `Tail` on a bounded cursor with a buffered page never
issues a listing call. -/
lemma runTails_no_fetch (objs : List S3Obj) : ∀ (n : Nat) (s : SeqSt),
    s.stream = false → s.items ≠ none → (runTails objs n s).2.1 = [] := by
  intro n
  induction n with
  | zero => intro s _ _; rfl
  | succ n ih =>
    intro s h1 h2
    have ht := tailS_no_fetch objs s h1 h2
    rcases hts : tailS objs s with ⟨b0, s0, c0⟩
    rw [hts] at ht
    have hc0 : c0 = [] := ht.1
    have hs0 : s0.stream = false := ht.2.1
    have hi0 : s0.items = s.items := ht.2.2
    unfold runTails
    rw [hts]
    show c0 ++ (runTails objs n s0).2.1 = []
    rw [hc0, ih s0 hs0 (by rw [hi0]; exact h2)]
    rfl

/-- C6: a bounded cursor (`Limit k`) over more than `k` matching keys
fetches exactly one page — one listing request, sized `k` — buffers
exactly `k` keys, leaves a non-empty resumption cursor (`Cursor()` is the
last seen key), and no sequence of further `Tail` calls ever issues
another listing request, although the remote signalled more pages. -/
theorem c6_bounded_never_overfetches (objs : List S3Obj) (pfx : String)
    (mk0 k : Nat) (_hs : keySorted objs) (hk : 1 ≤ k)
    (hN : k < (matchedObjs objs ⟨pfx, k, none⟩).length) :
    seedS objs (limitS k (newSeq ⟨pfx, mk0, none⟩)) =
      (true, seededBounded objs pfx k, [⟨pfx, k, none⟩])
  ∧ (((matchedObjs objs ⟨pfx, k, none⟩).take k).map S3Obj.key).length = k
  ∧ cursorS (seededBounded objs pfx k) ≠ none
  ∧ (∀ n, (runTails objs n (seededBounded objs pfx k)).2.1 = []) := by
  have hlen_take : ((matchedObjs objs ⟨pfx, k, none⟩).take k).length = k := by
    rw [List.length_take]
    exact min_eq_left (le_of_lt hN)
  have hlen_map : (((matchedObjs objs ⟨pfx, k, none⟩).take k).map S3Obj.key).length = k := by
    rw [List.length_map]
    exact hlen_take
  have hne : ((matchedObjs objs ⟨pfx, k, none⟩).take k).map S3Obj.key ≠ [] := by
    intro he
    rw [he] at hlen_map
    simp at hlen_map
    omega
  refine ⟨?_, hlen_map, ?_,
    fun n => runTails_no_fetch objs n _ rfl (by simp [seededBounded])⟩
  · show seedS objs
        { q := ⟨pfx, k, none⟩, idx := 0, items := none, stream := false, err := false } = _
    unfold seedS
    rw [if_neg (by simp)]
    simp only [listModel_keyCount2, listModel_contents2, listModel_nextToken2,
      hlen_take, hlen_map]
    rw [if_neg (by omega)]
    rw [decide_eq_true hN]
    simp [seededBounded, hk, Nat.lt_of_lt_of_le Nat.zero_lt_one hk]
  · simp only [cursorS, seededBounded]
    intro hcon
    have hsome := List.getLast?_isSome.mpr hne
    rw [hcon] at hsome
    exact Bool.noConfusion hsome

/-- C6 witness: keys `a/1, a/2, a/3`, `Limit 1`: one fetch of one key, a
non-empty resumption cursor, and five further `Tail` calls issue no
request. -/
theorem c6_bounded_never_overfetches_witness :
    seedS objsDemo (limitS 1 (newSeq ⟨"a/", 1000, none⟩)) =
      (true, seededBounded objsDemo "a/" 1, [⟨"a/", 1, none⟩])
  ∧ cursorS (seededBounded objsDemo "a/" 1) ≠ none
  ∧ (runTails objsDemo 5 (seededBounded objsDemo "a/" 1)).2.1 = [] :=
  have h := c6_bounded_never_overfetches objsDemo "a/" 1000 1 (by decide) (by decide)
    (by decide)
  ⟨h.1, h.2.2.1, h.2.2.2 5⟩

/-- A cursor whose buffered page is consumed and whose `StartAfter` marker
is cleared answers `Tail` with `false`, no listing call, and only the
position advanced — for any `err` and `stream` flag (even in streaming
mode, `seed`'s first guard refuses without I/O). -/
lemma tailS_exhausted (objs : List S3Obj) (s : SeqSt) (its : List String)
    (hi : s.items = some its) (hsa : s.q.startAfter = none)
    (hidx : its.length ≤ s.idx + 1) :
    tailS objs s = (false, { s with idx := s.idx + 1 }, []) := by
  obtain ⟨q, idx, items, stream, err⟩ := s
  simp only at hi hsa hidx
  subst hi
  cases err with
  | true => rfl
  | false =>
    cases stream with
    | false => simp [tailS, maybeSeedS, hidx]
    | true => simp [tailS, maybeSeedS, seedS, hidx, hsa]

/-- C7 (amended): once the buffered page is exhausted with no pending
continuation marker, every further `Tail` returns `false` and issues no
listing call — this branch of exhaustion is terminal and sticky. -/
theorem c7_exhaustion_sticky_when_marker_cleared (objs : List S3Obj) :
    ∀ (n : Nat) (s : SeqSt) (its : List String), s.items = some its →
      s.q.startAfter = none → its.length ≤ s.idx + 1 →
      (runTails objs n s).2.1 = [] ∧ (runTails objs n s).2.2 = List.replicate n false := by
  intro n
  induction n with
  | zero => intro s its _ _ _; exact ⟨rfl, rfl⟩
  | succ n ih =>
    intro s its hi hsa hidx
    have ht := tailS_exhausted objs s its hi hsa hidx
    unfold runTails
    rw [ht]
    have hrec := ih { s with idx := s.idx + 1 } its hi hsa (by simp only; omega)
    show (([] : List ListReq) ++ (runTails objs n { s with idx := s.idx + 1 }).2.1 = [])
      ∧ _ = _
    rw [hrec.1]
    refine ⟨rfl, ?_⟩
    show false :: (runTails objs n { s with idx := s.idx + 1 }).2.2 = _
    rw [hrec.2, List.replicate_succ]

/-- C7 counterexample: over an empty listing, the first `Tail` observes
end of stream through a zero-key page fetch (it returns `false` after one
listing call), yet the next `Tail` issues another listing call — the
zero-key form of exhaustion is not latched, refuting "further `Tail`
calls return false **without issuing another network listing call**". -/
theorem c7_zero_key_exhaustion_not_sticky :
    (tailS [] (newSeq ⟨"", 1, none⟩)).1 = false
  ∧ (tailS [] (newSeq ⟨"", 1, none⟩)).2.2 = [⟨"", 1, none⟩]
  ∧ (tailS [] (tailS [] (newSeq ⟨"", 1, none⟩)).2.1).2.2 = [⟨"", 1, none⟩] := by
  refine ⟨rfl, rfl, rfl⟩

/-- C7 witness: a cursor that exhausted its buffered single-key page with
the marker cleared answers three further `Tail` calls with `false` and no
listing call. -/
theorem c7_exhaustion_sticky_witness :
    (runTails [] 3
      { q := ⟨"", 1, none⟩, idx := 1, items := some ["a"], stream := true,
        err := false }).2.1 = []
  ∧ (runTails [] 3
      { q := ⟨"", 1, none⟩, idx := 1, items := some ["a"], stream := true,
        err := false }).2.2 = List.replicate 3 false :=
  c7_exhaustion_sticky_when_marker_cleared [] 3 _ ["a"] rfl rfl (by decide)
